import Mathlib

/-!
Verification of the `ctcomputeR` group-sequential trial design engine.

The repository's own source is the host-binding layer `src/rust/src/lib.rs`
(entry points `ctcompute` and `ss_range`); the statistical engine it calls
(crate `ctcompute`: `EnrollmentRate`, `SpendingFcn`, `compute_trial`,
`compute_ss_range`) is not part of the available source, so those components
are modelled from the specification.  Real-valued machine floats are embedded
as `ℚ` (exact arithmetic); the Lan-DeMets O'Brien-Fleming spending function,
which is genuinely analytic, is embedded over `ℝ`.
-/

deriving instance DecidableEq for Except

attribute [local semireducible] Rat.add Rat.mul Rat.sub Rat.inv

namespace CtcomputeR

/-- Modelled from the spec: the error taxonomy of the missing engine crate
(spec section 7).  The two selector errors raised directly by `lib.rs`
(`throw_r_error` with a descriptive string) are represented by the
constructors carrying the data that determines the thrown message. -/
inductive CtError where
  | InvalidEnrollmentModel
  | InvalidSpendingFunction (name : String)
  | MissingCustomSpend (which : String)
  | InvalidParameterRange
  | Unreachable
  | NonConvergence
  deriving DecidableEq

/-- The spending-function type of the engine crate; its variant shape
(`LDOF` and `Custom { cumulative_spend }`) is visible in `lib.rs`. -/
inductive SpendingFcn where
  | LDOF
  | Custom (cumulative_spend : List ℚ)
  deriving DecidableEq

/-- Modelled from the spec: the piecewise-constant enrollment model
(missing engine crate).  `rates[i]` applies on `[times[i], times[i+1])`,
the final rate extending to infinity (spec sections 3 and 4.1). -/
structure EnrollmentRate where
  times : List ℚ
  rates : List ℚ
  deriving DecidableEq

/-- The first breakpoint time, when present, is nonnegative. -/
def headNonneg : List ℚ → Prop
  | [] => True
  | t :: _ => 0 ≤ t

instance instDecHeadNonneg : (l : List ℚ) → Decidable (headNonneg l)
  | [] => Decidable.isTrue trivial
  | t :: _ => inferInstanceAs (Decidable (0 ≤ t))

/-- Strictly increasing sequence of breakpoint times. -/
def strictlyInc : List ℚ → Prop
  | [] => True
  | [_] => True
  | a :: b :: tl => a < b ∧ strictlyInc (b :: tl)

instance instDecStrictlyInc : (l : List ℚ) → Decidable (strictlyInc l)
  | [] => Decidable.isTrue trivial
  | [_] => Decidable.isTrue trivial
  | a :: b :: tl =>
    @instDecidableAnd (a < b) (strictlyInc (b :: tl)) _ (instDecStrictlyInc (b :: tl))

/-- Modelled from the spec: `EnrollmentRate::new` of the missing engine crate.
Construction fails with `InvalidEnrollmentModel` when lengths mismatch, times
are not strictly increasing from a first value at least 0, or any rate is
negative (spec section 4.1). -/
def EnrollmentRate.new (times rates : List ℚ) : Except CtError EnrollmentRate :=
  if times.length = rates.length ∧ strictlyInc times ∧ headNonneg times
      ∧ ∀ x ∈ rates, 0 ≤ x
  then Except.ok ⟨times, rates⟩
  else Except.error CtError.InvalidEnrollmentModel

/-- Validity invariant established by `EnrollmentRate.new`. -/
def EnrollmentRate.Valid (er : EnrollmentRate) : Prop :=
  er.times.length = er.rates.length ∧ strictlyInc er.times ∧ headNonneg er.times
    ∧ ∀ x ∈ er.rates, 0 ≤ x

/-- Modelled from the spec: patients enrolled by time `t`, the piecewise-linear
integral of the step-rate schedule (derived query of the enrollment model). -/
def cpAux : List ℚ → List ℚ → ℚ → ℚ
  | t0 :: t1 :: ts, r0 :: rs, t => r0 * max 0 (min t t1 - t0) + cpAux (t1 :: ts) rs t
  | [t0], [r0], t => r0 * max 0 (t - t0)
  | _, _, _ => 0

/-- Cumulative patients enrolled by time `t`. -/
def cumulative_patients (er : EnrollmentRate) (t : ℚ) : ℚ :=
  cpAux er.times er.rates t

/-- Modelled from the spec: piecewise solve for the first time at which the
remaining target `n > 0` is reached, scanning segments left to right; fails
with `Unreachable` when the terminal rate is zero and the target exceeds the
asymptotic enrollment (spec section 4.1). -/
def tfpAux : List ℚ → List ℚ → ℚ → Except CtError ℚ
  | t0 :: t1 :: ts, r0 :: rs, n =>
    if n ≤ r0 * (t1 - t0) then Except.ok (t0 + n / r0)
    else tfpAux (t1 :: ts) rs (n - r0 * (t1 - t0))
  | [t0], [r0], n =>
    if r0 = 0 then Except.error CtError.Unreachable else Except.ok (t0 + n / r0)
  | _, _, _ => Except.error CtError.Unreachable

/-- Time at which a target cumulative patient count is reached (inverse of
`cumulative_patients`); a nonpositive target is already reached at time 0. -/
def time_for_patients (er : EnrollmentRate) (n : ℚ) : Except CtError ℚ :=
  if n ≤ 0 then Except.ok 0 else tfpAux er.times er.rates n

/-- The enrollment rate in force at time `t` (0 before the first breakpoint). -/
def rateAt : List ℚ → List ℚ → ℚ → ℚ
  | t0 :: t1 :: ts, r0 :: rs, t =>
    if t0 ≤ t ∧ t < t1 then r0 else rateAt (t1 :: ts) rs t
  | [t0], [r0], t => if t0 ≤ t then r0 else 0
  | _, _, _ => 0

/-- Modelled from the spec: the numerical integration machinery of the solver
(grid construction and recursive convolution across looks).  The spec leaves
the exact scheme open (section 9, "Open question"), so it is abstracted as a
bundle of functions of the patient count and the candidate trial duration:
the integrated rejection probability under H1 (the quantity root-found to the
target power), the per-patient probability of an observed event by the end of
the trial (competing-risks event/dropout survival), and the expected
accrual/trial durations and sample sizes under H0 and H1 (spec section 4.3,
steps 2, 3 and 5). -/
structure Machinery where
  rejectProbH1 : ℕ → ℚ → ℚ
  pObserved : ℕ → ℚ → ℚ
  expAccrualH0 : ℕ → ℚ → ℚ
  expAccrualH1 : ℕ → ℚ → ℚ
  expTrialH0 : ℕ → ℚ → ℚ
  expTrialH1 : ℕ → ℚ → ℚ
  expSampleH0 : ℕ → ℚ → ℚ
  expSampleH1 : ℕ → ℚ → ℚ

/-- The probabilistic facts any correct integration machinery satisfies:
`pObserved` is a probability, and expectations of nonnegative quantities
(durations, sample sizes) are nonnegative. -/
structure Machinery.Valid (m : Machinery) : Prop where
  pObserved_nonneg : ∀ n D, 0 ≤ m.pObserved n D
  pObserved_le_one : ∀ n D, m.pObserved n D ≤ 1
  expAccrualH0_nonneg : ∀ n D, 0 ≤ m.expAccrualH0 n D
  expAccrualH1_nonneg : ∀ n D, 0 ≤ m.expAccrualH1 n D
  expTrialH0_nonneg : ∀ n D, 0 ≤ m.expTrialH0 n D
  expTrialH1_nonneg : ∀ n D, 0 ≤ m.expTrialH1 n D
  expSampleH0_nonneg : ∀ n D, 0 ≤ m.expSampleH0 n D
  expSampleH1_nonneg : ∀ n D, 0 ≤ m.expSampleH1 n D

/-- The result record of `compute_trial`; its fields are read off in
`lib.rs` (lines 113-124). -/
structure TrialDesign where
  accrual_duration : ℚ
  trial_duration : ℚ
  n_events : ℚ
  n_patients : ℕ
  h0_expected_accrual_duration : ℚ
  h1_expected_accrual_duration : ℚ
  h0_expected_trial_duration : ℚ
  h1_expected_trial_duration : ℚ
  h0_expected_sample_size : ℚ
  h1_expected_sample_size : ℚ
  deriving DecidableEq

/-- Modelled from the spec: admissible-range validation of the solver inputs
(spec section 4.3 step 1 and section 7, `InvalidParameterRange`). -/
def validateParams (alpha power prop_treated lambda_trt lambda_ctrl : ℚ)
    (lambda_dropout : Option ℚ) (r : ℕ) : Except CtError Unit :=
  if 0 < alpha ∧ alpha < 1 ∧ 0 < power ∧ power < 1
      ∧ 0 < prop_treated ∧ prop_treated < 1
      ∧ 0 < lambda_trt ∧ 0 < lambda_ctrl
      ∧ (∀ d ∈ lambda_dropout, 0 ≤ d) ∧ 0 < r
  then Except.ok () else Except.error CtError.InvalidParameterRange

/-- Modelled from the spec: the look schedule, defaulting to a single final
analysis; an explicit schedule must be strictly increasing in (0,1] with
last element exactly 1 (spec section 3, `LookSchedule`). -/
def resolveLooks (maybe_looks : Option (List ℚ)) : Except CtError (List ℚ) :=
  match maybe_looks with
  | none => Except.ok [1]
  | some fr =>
    if fr ≠ [] ∧ strictlyInc fr ∧ (∀ x ∈ fr, 0 < x) ∧ fr.getLast? = some 1
    then Except.ok fr else Except.error CtError.InvalidParameterRange

/-- Modelled from the spec: a custom boundary's cumulative-spend sequence must
have one entry per look; a mismatch is the `MissingCustomSpend` error ("custom
selected without (or with mismatched) cumulative-spend data", spec section 7). -/
def checkCustomLen (which : String) (fcn : Option SpendingFcn) (looks : List ℚ) :
    Except CtError Unit :=
  match fcn with
  | some (SpendingFcn.Custom cs) =>
    if cs.length = looks.length then Except.ok ()
    else Except.error (CtError.MissingCustomSpend which)
  | _ => Except.ok ()

/-- Internal iteration budget of the root-finder (spec section 7:
`NonConvergence` when exceeded). -/
def iterBudget : ℕ := 200

/-- Upper bracket width for the duration search (model constant). -/
def searchHorizon : ℚ := 1048576

/-- Modelled from the spec: bisection root-finding on the candidate trial
duration, succeeding when the integrated rejection probability under H1 is
within `tol` of the target power, and failing with `NonConvergence` when the
iteration budget is exhausted (spec section 4.3 step 4 and section 8). -/
def bisectPower (f : ℚ → ℚ) (target tol : ℚ) : ℚ → ℚ → ℕ → Except CtError ℚ
  | _, _, 0 => Except.error CtError.NonConvergence
  | lo, hi, fuel + 1 =>
    let mid := (lo + hi) / 2
    if |f mid - target| ≤ tol then Except.ok mid
    else if f mid < target then bisectPower f target tol mid hi fuel
    else bisectPower f target tol lo mid fuel

/-- Modelled from the spec: the trial design solver `compute_trial` of the
missing engine crate (spec section 4.3).  Validation, look-schedule and
custom-spend checks, accrual duration via the enrollment model's inverse
query, root-finding of the trial duration in `[accrual, accrual + horizon]`,
the event count as (probability of an observed event) times (patients
enrolled, capped at `n_patients`), and the expected characteristics under
H0/H1 from the integration machinery `m`. -/
def compute_trial (m : Machinery) (n_patients : ℕ) (alpha power : ℚ)
    (maybe_lower_spending_fcn maybe_upper_spending_fcn : Option SpendingFcn)
    (maybe_look_fractions : Option (List ℚ))
    (prop_treated lambda_event_trt lambda_event_ctrl : ℚ)
    (maybe_lambda_dropout : Option ℚ) (er : EnrollmentRate) (r : ℕ) (tol : ℚ) :
    Except CtError TrialDesign := do
  let _ ← validateParams alpha power prop_treated lambda_event_trt
    lambda_event_ctrl maybe_lambda_dropout r
  let looks ← resolveLooks maybe_look_fractions
  let _ ← checkCustomLen "lower" maybe_lower_spending_fcn looks
  let _ ← checkCustomLen "upper" maybe_upper_spending_fcn looks
  let accD ← time_for_patients er (n_patients : ℚ)
  let D ← bisectPower (m.rejectProbH1 n_patients) power tol accD
    (accD + searchHorizon) iterBudget
  Except.ok
    { accrual_duration := accD
      trial_duration := D
      n_events := m.pObserved n_patients D * min (cumulative_patients er D) (n_patients : ℚ)
      n_patients := n_patients
      h0_expected_accrual_duration := m.expAccrualH0 n_patients D
      h1_expected_accrual_duration := m.expAccrualH1 n_patients D
      h0_expected_trial_duration := m.expTrialH0 n_patients D
      h1_expected_trial_duration := m.expTrialH1 n_patients D
      h0_expected_sample_size := m.expSampleH0 n_patients D
      h1_expected_sample_size := m.expSampleH1 n_patients D }

/-- Percentage reduction in trial duration between consecutive candidates. -/
def percChange (d1 d2 : ℚ) : ℚ := (d1 - d2) / d1 * 100

/-- Seed patient count of the sample-size sweep (spec section 4.4,
"starting from a small seed"; the exact seed is a model constant). -/
def ssSeed : ℕ := 2

/-- Iteration budget of the sample-size sweep. -/
def ssFuel : ℕ := 10000

/-- Grid resolution used by the range search's interior solves
(`ss_range` exposes no `r` parameter; model constant, the recommended 32). -/
def ssDefaultR : ℕ := 32

/-- Modelled from the spec: the diminishing-returns scan.  Solves at `n` and
`n + step`, returns `(n, n + step)` once the percentage reduction in trial
duration falls below the threshold, and otherwise advances; a single interior
failure aborts the whole search (spec section 4.4). -/
def ssSearch (solve : ℕ → Except CtError ℚ) (step : ℕ) (minPerc : ℚ) :
    ℕ → ℕ → Except CtError (ℕ × ℕ)
  | _, 0 => Except.error CtError.NonConvergence
  | n, fuel + 1 => do
    let d1 ← solve n
    let d2 ← solve (n + step)
    if percChange d1 d2 < minPerc then Except.ok (n, n + step)
    else ssSearch solve step minPerc (n + step) fuel

/-- Modelled from the spec: `compute_ss_range` of the missing engine crate,
sweeping `compute_trial` over a grid of patient counts stepped by `delta`
(spec section 4.4). -/
def compute_ss_range (m : Machinery) (alpha power : ℚ)
    (maybe_lower_spending_fcn maybe_upper_spending_fcn : Option SpendingFcn)
    (maybe_look_fractions : Option (List ℚ))
    (prop_treated lambda_event_trt lambda_event_ctrl : ℚ)
    (maybe_lambda_dropout : Option ℚ) (er : EnrollmentRate)
    (tol delta min_perc_change : ℚ) : Except CtError (ℕ × ℕ) :=
  ssSearch
    (fun n => Except.map TrialDesign.trial_duration
      (compute_trial m n alpha power maybe_lower_spending_fcn
        maybe_upper_spending_fcn maybe_look_fractions prop_treated
        lambda_event_trt lambda_event_ctrl maybe_lambda_dropout er
        ssDefaultR tol))
    (max 1 (Int.toNat ⌈delta⌉)) min_perc_change ssSeed ssFuel

/-- The spending-function selector resolution of `ctcompute` in `lib.rs`
(lines 43-59 and 62-78): `"LDOF"` is the parametric family, `"custom"`
requires the shared `maybe_custom_alpha_spend` sequence and otherwise throws,
an absent selector resolves to no boundary, and any other string throws the
invalid-spending-function error. -/
def resolveSpendingFcnCT (which : String) (sel : Option String)
    (custom_alpha_spend : Option (List ℚ)) : Except CtError (Option SpendingFcn) :=
  match sel with
  | none => Except.ok none
  | some s =>
    if s = "LDOF" then Except.ok (some SpendingFcn.LDOF)
    else if s = "custom" then
      match custom_alpha_spend with
      | some cs => Except.ok (some (SpendingFcn.Custom cs))
      | none => Except.error (CtError.MissingCustomSpend which)
    else Except.error (CtError.InvalidSpendingFunction s)

/-- The spending-function selector resolution of `ss_range` in `lib.rs`
(lines 163-179 and 182-198); identical classification to `ctcompute`'s, with
the unknown-selector arm returning an `Err` instead of throwing. -/
def resolveSpendingFcnSS (which : String) (sel : Option String)
    (custom_alpha_spend : Option (List ℚ)) : Except CtError (Option SpendingFcn) :=
  match sel with
  | none => Except.ok none
  | some s =>
    if s = "LDOF" then Except.ok (some SpendingFcn.LDOF)
    else if s = "custom" then
      match custom_alpha_spend with
      | some cs => Except.ok (some (SpendingFcn.Custom cs))
      | none => Except.error (CtError.MissingCustomSpend which)
    else Except.error (CtError.InvalidSpendingFunction s)

/-- The entry point `ctcompute` of `lib.rs`: resolve the lower then the upper
spending selector, construct the enrollment model, and run the solver; any
failure aborts the call (`throw_r_error`).  The machinery `m` stands for the
engine's numerical core. -/
def ctcompute (m : Machinery) (n_patients : ℕ) (alpha power : ℚ)
    (maybe_lower_spending_fcn maybe_upper_spending_fcn : Option String)
    (maybe_look_fractions : Option (List ℚ))
    (prop_treated lambda_event_trt lambda_event_ctrl : ℚ)
    (maybe_lambda_dropout : Option ℚ)
    (enrollment_rates enrollment_times : List ℚ)
    (maybe_custom_alpha_spend : Option (List ℚ)) (r : ℕ) (tol : ℚ) :
    Except CtError TrialDesign := do
  let lower ← resolveSpendingFcnCT "lower" maybe_lower_spending_fcn maybe_custom_alpha_spend
  let upper ← resolveSpendingFcnCT "upper" maybe_upper_spending_fcn maybe_custom_alpha_spend
  let er ← EnrollmentRate.new enrollment_times enrollment_rates
  compute_trial m n_patients alpha power lower upper maybe_look_fractions
    prop_treated lambda_event_trt lambda_event_ctrl maybe_lambda_dropout er r tol

/-- The entry point `ss_range` of `lib.rs`: same resolution pipeline, then the
sample-size range search. -/
def ss_range (m : Machinery) (alpha power : ℚ)
    (maybe_lower_spending_fcn maybe_upper_spending_fcn : Option String)
    (maybe_look_fractions : Option (List ℚ))
    (prop_treated lambda_event_trt lambda_event_ctrl : ℚ)
    (maybe_lambda_dropout : Option ℚ)
    (enrollment_rates enrollment_times : List ℚ)
    (maybe_custom_alpha_spend : Option (List ℚ))
    (tol delta min_perc_change : ℚ) : Except CtError (ℕ × ℕ) := do
  let lower ← resolveSpendingFcnSS "lower" maybe_lower_spending_fcn maybe_custom_alpha_spend
  let upper ← resolveSpendingFcnSS "upper" maybe_upper_spending_fcn maybe_custom_alpha_spend
  let er ← EnrollmentRate.new enrollment_times enrollment_rates
  compute_ss_range m alpha power lower upper maybe_look_fractions prop_treated
    lambda_event_trt lambda_event_ctrl maybe_lambda_dropout er tol delta
    min_perc_change

/-- The unnormalized standard normal density kernel exp(-x^2/2). -/
noncomputable def stdGauss (x : ℝ) : ℝ := Real.exp (-(1 / 2) * x ^ 2)

/-- Cumulative integral of the standard normal kernel up to `y`. -/
noncomputable def stdNormalIntegral (y : ℝ) : ℝ := ∫ x in Set.Iic y, stdGauss x

/-- The standard normal cumulative distribution function. -/
noncomputable def stdNormalCDF (y : ℝ) : ℝ :=
  stdNormalIntegral y / Real.sqrt (2 * Real.pi)

/-- The upper `a/2` standard normal critical value `z` with `Phi(z) = 1 - a/2`
(any fixed choice; it exists for `a` in (0,1)). -/
noncomputable def ldofCrit (a : ℝ) : ℝ :=
  Classical.epsilon fun z => stdNormalCDF z = 1 - a / 2

/-- Modelled from the spec: `boundary_value` of the parametric Lan-DeMets
O'Brien-Fleming-like spending family (`SpendingFcn.LDOF` of the missing
engine crate): the cumulative one-sided alpha spent by information fraction
`t`, the classical closed form `2 * (1 - Phi(z_{1-a/2} / sqrt t))`, derived
analytically from the overall one-sided alpha `a` (spec sections 3 and 4.2). -/
noncomputable def ldof_boundary_value (a t : ℝ) : ℝ :=
  2 * (1 - stdNormalCDF (ldofCrit a / Real.sqrt t))

/-- A concrete constant integration machinery, used to instantiate the
abstract numerical core on executable inputs. -/
def mW : Machinery where
  rejectProbH1 := fun _ _ => 1 / 2
  pObserved := fun _ _ => 1
  expAccrualH0 := fun _ _ => 0
  expAccrualH1 := fun _ _ => 0
  expTrialH0 := fun _ _ => 0
  expTrialH1 := fun _ _ => 0
  expSampleH0 := fun _ _ => 0
  expSampleH1 := fun _ _ => 0

/-! ### Generic `Except` plumbing -/

lemma error_bind {ε α β : Type} (e : ε) (f : α → Except ε β) :
    (Except.error e : Except ε α) >>= f = Except.error e := rfl

lemma ok_bind {ε α β : Type} (a : α) (f : α → Except ε β) :
    (Except.ok a : Except ε α) >>= f = f a := rfl

lemma bind_eq_ok {ε α β : Type} {x : Except ε α} {f : α → Except ε β} {b : β} :
    x >>= f = Except.ok b ↔ ∃ a, x = Except.ok a ∧ f a = Except.ok b := by
  cases x <;> simp [ok_bind, error_bind]

lemma map_eq_ok {ε α β : Type} {g : α → β} {x : Except ε α} {b : β} :
    Except.map g x = Except.ok b ↔ ∃ a, x = Except.ok a ∧ g a = b := by
  cases x <;> simp [Except.map]

/-! ### Reduction lemmas for the `lib.rs` selector resolution -/

lemma resolveCT_custom_none (w : String) :
    resolveSpendingFcnCT w (some "custom") none
      = Except.error (CtError.MissingCustomSpend w) := rfl

lemma resolveCT_custom_some (w : String) (cs : List ℚ) :
    resolveSpendingFcnCT w (some "custom") (some cs)
      = Except.ok (some (SpendingFcn.Custom cs)) := rfl

lemma resolveCT_unknown (w : String) {s : String} (h1 : s ≠ "LDOF")
    (h2 : s ≠ "custom") (cas : Option (List ℚ)) :
    resolveSpendingFcnCT w (some s) cas
      = Except.error (CtError.InvalidSpendingFunction s) := by
  simp [resolveSpendingFcnCT, h1, h2]

lemma resolveSS_custom_none (w : String) :
    resolveSpendingFcnSS w (some "custom") none
      = Except.error (CtError.MissingCustomSpend w) := rfl

lemma resolveSS_custom_some (w : String) (cs : List ℚ) :
    resolveSpendingFcnSS w (some "custom") (some cs)
      = Except.ok (some (SpendingFcn.Custom cs)) := rfl

lemma resolveSS_unknown (w : String) {s : String} (h1 : s ≠ "LDOF")
    (h2 : s ≠ "custom") (cas : Option (List ℚ)) :
    resolveSpendingFcnSS w (some s) cas
      = Except.error (CtError.InvalidSpendingFunction s) := by
  simp [resolveSpendingFcnSS, h1, h2]

lemma resolveSS_eq_resolveCT : resolveSpendingFcnSS = resolveSpendingFcnCT := rfl

lemma ssSearch_error_first {solve : ℕ → Except CtError ℚ} {step : ℕ} {minPerc : ℚ}
    {n fuel : ℕ} {e : CtError} (hf : fuel ≠ 0) (h : solve n = Except.error e) :
    ssSearch solve step minPerc n fuel = Except.error e := by
  cases fuel with
  | zero => exact absurd rfl hf
  | succ k => simp [ssSearch, h, error_bind]

lemma checkCustomLen_mismatch {which : String} {cs : List ℚ} {looks : List ℚ}
    (h : cs.length ≠ looks.length) :
    checkCustomLen which (some (SpendingFcn.Custom cs)) looks
      = Except.error (CtError.MissingCustomSpend which) := by
  simp [checkCustomLen, h]

/-- C1: requesting a `"custom"` lower or upper spending function without a
`custom_alpha_spend` sequence makes both entry points fail with the
missing-custom-spend error rather than falling back to a parametric boundary,
and a supplied sequence whose length mismatches the look schedule is also an
error. -/
theorem c1_custom_spend_required
    (m : Machinery) (n : ℕ) (alpha power : ℚ) (lsel usel : Option String)
    (looks : Option (List ℚ)) (pt l1 l2 : ℚ) (ld : Option ℚ)
    (rates times : List ℚ) (r : ℕ) (tol delta mpc : ℚ)
    (lf : Option SpendingFcn) (er : EnrollmentRate) (lks : List ℚ) (l : List ℚ)
    (hl : resolveSpendingFcnCT "lower" lsel none = Except.ok lf)
    (hlss : resolveSpendingFcnSS "lower" lsel none = Except.ok lf)
    (hval : validateParams alpha power pt l1 l2 ld r = Except.ok ())
    (hvalSS : validateParams alpha power pt l1 l2 ld ssDefaultR = Except.ok ())
    (her : EnrollmentRate.new times rates = Except.ok er)
    (hlks : resolveLooks looks = Except.ok lks)
    (hlen : l.length ≠ lks.length) :
    ctcompute m n alpha power (some "custom") usel looks pt l1 l2 ld rates times none r tol
        = Except.error (CtError.MissingCustomSpend "lower")
      ∧ ctcompute m n alpha power lsel (some "custom") looks pt l1 l2 ld rates times none r tol
        = Except.error (CtError.MissingCustomSpend "upper")
      ∧ ss_range m alpha power (some "custom") usel looks pt l1 l2 ld rates times none tol delta mpc
        = Except.error (CtError.MissingCustomSpend "lower")
      ∧ ss_range m alpha power lsel (some "custom") looks pt l1 l2 ld rates times none tol delta mpc
        = Except.error (CtError.MissingCustomSpend "upper")
      ∧ ctcompute m n alpha power (some "custom") (some "custom") looks pt l1 l2 ld rates times (some l) r tol
        = Except.error (CtError.MissingCustomSpend "lower")
      ∧ ss_range m alpha power (some "custom") (some "custom") looks pt l1 l2 ld rates times (some l) tol delta mpc
        = Except.error (CtError.MissingCustomSpend "lower") := by
  refine ⟨?_, ?_, ?_, ?_, ?_, ?_⟩
  · simp [ctcompute, resolveCT_custom_none, error_bind]
  · simp [ctcompute, hl, ok_bind, resolveCT_custom_none, error_bind]
  · simp [ss_range, resolveSS_custom_none, error_bind]
  · simp [ss_range, hlss, ok_bind, resolveSS_custom_none, error_bind]
  · simp [ctcompute, resolveCT_custom_some, ok_bind, her, compute_trial, hval,
      hlks, checkCustomLen_mismatch hlen, error_bind]
  · simp only [ss_range, resolveSS_custom_some, ok_bind, her, compute_ss_range]
    refine ssSearch_error_first (by simp [ssFuel]) ?_
    simp [compute_trial, hvalSS, hlks, ok_bind, checkCustomLen_mismatch hlen,
      error_bind, Except.map]

/-- Witness for C1 at a concrete input. -/
theorem c1_witness :
    ([(0 : ℚ), 0].length ≠ [(1 : ℚ)].length)
      ∧ ctcompute mW 1 (1/2) (1/2) (some "custom") none none (1/2) 1 1 none [1] [0] none 32 1
          = Except.error (CtError.MissingCustomSpend "lower")
      ∧ ctcompute mW 1 (1/2) (1/2) (some "custom") (some "custom") none (1/2) 1 1 none [1] [0]
          (some [(0 : ℚ), 0]) 32 1 = Except.error (CtError.MissingCustomSpend "lower") := by
  have h := c1_custom_spend_required mW 1 (1/2) (1/2) none none none (1/2) 1 1 none
    [1] [0] 32 1 1 1 none ⟨[0], [1]⟩ [1] [(0 : ℚ), 0] rfl rfl (by decide) (by decide)
    (by decide) rfl (by decide)
  exact ⟨by decide, h.1, h.2.2.2.2.1⟩

/-- C2: any spending-function selector other than `"LDOF"` and `"custom"`
makes both entry points fail with the invalid-spending-function error at
construction time; it is never treated as a default boundary. -/
theorem c2_unknown_selector
    (m : Machinery) (n : ℕ) (alpha power : ℚ) (lsel usel : Option String)
    (looks : Option (List ℚ)) (pt l1 l2 : ℚ) (ld : Option ℚ)
    (rates times : List ℚ) (r : ℕ) (tol delta mpc : ℚ)
    (s : String) (hs1 : s ≠ "LDOF") (hs2 : s ≠ "custom")
    (cas : Option (List ℚ)) (lf : Option SpendingFcn)
    (hl : resolveSpendingFcnCT "lower" lsel cas = Except.ok lf)
    (hlss : resolveSpendingFcnSS "lower" lsel cas = Except.ok lf) :
    ctcompute m n alpha power (some s) usel looks pt l1 l2 ld rates times cas r tol
        = Except.error (CtError.InvalidSpendingFunction s)
      ∧ ctcompute m n alpha power lsel (some s) looks pt l1 l2 ld rates times cas r tol
        = Except.error (CtError.InvalidSpendingFunction s)
      ∧ ss_range m alpha power (some s) usel looks pt l1 l2 ld rates times cas tol delta mpc
        = Except.error (CtError.InvalidSpendingFunction s)
      ∧ ss_range m alpha power lsel (some s) looks pt l1 l2 ld rates times cas tol delta mpc
        = Except.error (CtError.InvalidSpendingFunction s) := by
  refine ⟨?_, ?_, ?_, ?_⟩
  · simp [ctcompute, resolveCT_unknown _ hs1 hs2, error_bind]
  · simp [ctcompute, hl, ok_bind, resolveCT_unknown _ hs1 hs2, error_bind]
  · simp [ss_range, resolveSS_unknown _ hs1 hs2, error_bind]
  · simp [ss_range, hlss, ok_bind, resolveSS_unknown _ hs1 hs2, error_bind]

/-- Witness for C2 at a concrete input. -/
theorem c2_witness :
    ("OF" ≠ "LDOF") ∧ ("OF" ≠ "custom")
      ∧ ctcompute mW 1 (1/2) (1/2) (some "OF") none none (1/2) 1 1 none [1] [0] none 32 1
          = Except.error (CtError.InvalidSpendingFunction "OF")
      ∧ ss_range mW (1/2) (1/2) (some "OF") none none (1/2) 1 1 none [1] [0] none 1 1 1
          = Except.error (CtError.InvalidSpendingFunction "OF") := by
  have h := c2_unknown_selector mW 1 (1/2) (1/2) none none none (1/2) 1 1 none [1] [0]
    32 1 1 1 "OF" (by decide) (by decide) none none rfl rfl
  exact ⟨by decide, by decide, h.1, h.2.2.1⟩

/-- C9: when both selectors are `"custom"`, both boundaries are constructed
from the single shared `custom_alpha_spend` sequence, so the engine receives
two custom boundaries carrying identical cumulative-spend data. -/
theorem c9_shared_custom_spend
    (m : Machinery) (n : ℕ) (alpha power : ℚ) (looks : Option (List ℚ))
    (pt l1 l2 : ℚ) (ld : Option ℚ) (rates times : List ℚ) (r : ℕ)
    (tol delta mpc : ℚ) (l : List ℚ) (er : EnrollmentRate)
    (her : EnrollmentRate.new times rates = Except.ok er) :
    ctcompute m n alpha power (some "custom") (some "custom") looks pt l1 l2 ld rates times (some l) r tol
      = compute_trial m n alpha power (some (SpendingFcn.Custom l))
          (some (SpendingFcn.Custom l)) looks pt l1 l2 ld er r tol
    ∧ ss_range m alpha power (some "custom") (some "custom") looks pt l1 l2 ld rates times (some l) tol delta mpc
      = compute_ss_range m alpha power (some (SpendingFcn.Custom l))
          (some (SpendingFcn.Custom l)) looks pt l1 l2 ld er tol delta mpc := by
  constructor
  · simp [ctcompute, resolveCT_custom_some, ok_bind, her]
  · simp [ss_range, resolveSS_custom_some, ok_bind, her]

/-- Witness for C9 at a concrete input. -/
theorem c9_witness :
    ctcompute mW 1 (1/2) (1/2) (some "custom") (some "custom") none (1/2) 1 1 none [1] [0]
        (some [(1 : ℚ)]) 32 1
      = compute_trial mW 1 (1/2) (1/2) (some (SpendingFcn.Custom [(1 : ℚ)]))
          (some (SpendingFcn.Custom [(1 : ℚ)])) none (1/2) 1 1 none ⟨[0], [1]⟩ 32 1 :=
  (c9_shared_custom_spend mW 1 (1/2) (1/2) none (1/2) 1 1 none [1] [0] 32 1 1 1
    [(1 : ℚ)] ⟨[0], [1]⟩ (by decide)).1

/-- C10: when `custom_alpha_spend` is supplied but neither selector is
`"custom"` (each is `"LDOF"` or absent), both entry points behave exactly as
if the sequence had not been supplied: it is silently ignored and nothing
depends on its contents. -/
theorem c10_custom_spend_ignored
    (m : Machinery) (n : ℕ) (alpha power : ℚ) (lsel usel : Option String)
    (hls : lsel = some "LDOF" ∨ lsel = none)
    (hus : usel = some "LDOF" ∨ usel = none)
    (looks : Option (List ℚ)) (pt l1 l2 : ℚ) (ld : Option ℚ)
    (rates times : List ℚ) (r : ℕ) (tol delta mpc : ℚ) (cs : List ℚ) :
    ctcompute m n alpha power lsel usel looks pt l1 l2 ld rates times (some cs) r tol
      = ctcompute m n alpha power lsel usel looks pt l1 l2 ld rates times none r tol
    ∧ ss_range m alpha power lsel usel looks pt l1 l2 ld rates times (some cs) tol delta mpc
      = ss_range m alpha power lsel usel looks pt l1 l2 ld rates times none tol delta mpc := by
  rcases hls with h | h <;> rcases hus with h' | h' <;> subst h <;> subst h' <;>
    exact ⟨rfl, rfl⟩

/-- Witness for C10 at a concrete input. -/
theorem c10_witness :
    ctcompute mW 1 (1/2) (1/2) (some "LDOF") none none (1/2) 1 1 none [1] [0]
        (some [(1 : ℚ), 2, 3]) 32 1
      = ctcompute mW 1 (1/2) (1/2) (some "LDOF") none none (1/2) 1 1 none [1] [0] none 32 1 :=
  (c10_custom_spend_ignored mW 1 (1/2) (1/2) (some "LDOF") none (Or.inl rfl) (Or.inr rfl)
    none (1/2) 1 1 none [1] [0] 32 1 1 1 [(1 : ℚ), 2, 3]).1

/-! ### Enrollment-model lemmas -/

lemma cpAux_nil (rs : List ℚ) (t : ℚ) : cpAux [] rs t = 0 := by
  cases rs <;> rfl

lemma rateAt_nil (rs : List ℚ) (x : ℚ) : rateAt [] rs x = 0 := by
  cases rs <;> rfl

lemma tfpAux_nil (rs : List ℚ) (n : ℚ) :
    tfpAux [] rs n = Except.error CtError.Unreachable := by
  cases rs <;> rfl

lemma cpAux_nonneg : ∀ (ts rs : List ℚ) (t : ℚ),
    (∀ x ∈ rs, 0 ≤ x) → 0 ≤ cpAux ts rs t
  | [], rs, t, _ => by rw [cpAux_nil]
  | [t0], rs, t, h => by
    match rs with
    | [] => simp [cpAux]
    | [r0] =>
      have h0 : 0 ≤ r0 := h r0 (by simp)
      simp only [cpAux]
      exact mul_nonneg h0 (le_max_left 0 _)
    | r0 :: r1 :: rs' => simp [cpAux]
  | t0 :: t1 :: ts, rs, t, h => by
    match rs with
    | [] => simp [cpAux]
    | r0 :: rs' =>
      have h0 : 0 ≤ r0 := h r0 (by simp)
      have ih := cpAux_nonneg (t1 :: ts) rs' t (fun x hx => h x (by simp [hx]))
      simp only [cpAux]
      exact add_nonneg (mul_nonneg h0 (le_max_left 0 _)) ih

lemma cpAux_mono : ∀ (ts rs : List ℚ) {s t : ℚ},
    (∀ x ∈ rs, 0 ≤ x) → s ≤ t → cpAux ts rs s ≤ cpAux ts rs t
  | [], rs, s, t, _, _ => by rw [cpAux_nil, cpAux_nil]
  | [t0], rs, s, t, h, hst => by
    match rs with
    | [] => simp [cpAux]
    | [r0] =>
      have h0 : 0 ≤ r0 := h r0 (by simp)
      simp only [cpAux]
      exact mul_le_mul_of_nonneg_left (max_le_max le_rfl (by linarith)) h0
    | r0 :: r1 :: rs' => simp [cpAux]
  | t0 :: t1 :: ts, rs, s, t, h, hst => by
    match rs with
    | [] => simp [cpAux]
    | r0 :: rs' =>
      have h0 : 0 ≤ r0 := h r0 (by simp)
      have ih := cpAux_mono (t1 :: ts) rs' (fun x hx => h x (by simp [hx])) hst
      simp only [cpAux]
      have hmin : min s t1 ≤ min t t1 := min_le_min hst le_rfl
      have h1 : r0 * max 0 (min s t1 - t0) ≤ r0 * max 0 (min t t1 - t0) :=
        mul_le_mul_of_nonneg_left (max_le_max le_rfl (by linarith)) h0
      linarith

lemma cpAux_zero_of_le_head : ∀ (t0 : ℚ) (ts rs : List ℚ) {u : ℚ},
    strictlyInc (t0 :: ts) → u ≤ t0 → cpAux (t0 :: ts) rs u = 0
  | t0, [], rs, u, _, hu => by
    match rs with
    | [] => rfl
    | [r0] =>
      simp only [cpAux]
      have : max 0 (u - t0) = 0 := max_eq_left (by linarith)
      rw [this, mul_zero]
    | r0 :: r1 :: rs' => rfl
  | t0, t1 :: ts, rs, u, hs, hu => by
    match rs with
    | [] => rfl
    | r0 :: rs' =>
      have h01 : t0 < t1 := hs.1
      have ih := cpAux_zero_of_le_head t1 ts rs' hs.2 (by linarith : u ≤ t1)
      simp only [cpAux, ih, add_zero]
      have : max 0 (min u t1 - t0) = 0 := max_eq_left (by simp [min_le_iff]; left; linarith)
      rw [this, mul_zero]

lemma cumulative_patients_zero {er : EnrollmentRate} (h : er.Valid) :
    cumulative_patients er 0 = 0 := by
  obtain ⟨-, hinc, hhd, -⟩ := h
  unfold cumulative_patients
  match her : er.times with
  | [] => rw [cpAux_nil]
  | t0 :: ts =>
    rw [her] at hinc hhd
    exact cpAux_zero_of_le_head t0 ts er.rates hinc hhd

lemma rateAt_one_nil (t0 x : ℚ) : rateAt [t0] [] x = 0 := rfl

lemma rateAt_one_many (t0 r0 r1 x : ℚ) (rs : List ℚ) :
    rateAt [t0] (r0 :: r1 :: rs) x = 0 := rfl

lemma rateAt_many_nil (t0 t1 x : ℚ) (ts : List ℚ) :
    rateAt (t0 :: t1 :: ts) [] x = 0 := rfl

lemma rateAt_one (t0 r0 x : ℚ) :
    rateAt [t0] [r0] x = if t0 ≤ x then r0 else 0 := rfl

lemma rateAt_cons (t0 t1 r0 x : ℚ) (ts rs : List ℚ) :
    rateAt (t0 :: t1 :: ts) (r0 :: rs) x
      = if t0 ≤ x ∧ x < t1 then r0 else rateAt (t1 :: ts) rs x := rfl

lemma rateAt_pos_head_le : ∀ (t0 : ℚ) (ts rs : List ℚ) {x : ℚ},
    strictlyInc (t0 :: ts) → 0 < rateAt (t0 :: ts) rs x → t0 ≤ x
  | t0, [], rs, x, _, h => by
    match rs with
    | [] => rw [rateAt_one_nil] at h; exact absurd h (lt_irrefl 0)
    | [r0] =>
      rw [rateAt_one] at h
      by_contra hx
      rw [if_neg hx] at h
      exact absurd h (lt_irrefl 0)
    | r0 :: r1 :: rs' => rw [rateAt_one_many] at h; exact absurd h (lt_irrefl 0)
  | t0, t1 :: ts, rs, x, hs, h => by
    match rs with
    | [] => rw [rateAt_many_nil] at h; exact absurd h (lt_irrefl 0)
    | r0 :: rs' =>
      rw [rateAt_cons] at h
      by_cases hc : t0 ≤ x ∧ x < t1
      · exact hc.1
      · rw [if_neg hc] at h
        have := rateAt_pos_head_le t1 ts rs' hs.2 h
        linarith [hs.1]

lemma cpAux_lt_of_rate_pos : ∀ (ts rs : List ℚ) {x y : ℚ},
    strictlyInc ts → (∀ r ∈ rs, 0 ≤ r) → 0 < rateAt ts rs x → x < y →
    cpAux ts rs x < cpAux ts rs y
  | [], rs, x, y, _, _, hrate, _ => by
    rw [rateAt_nil] at hrate; exact absurd hrate (lt_irrefl 0)
  | [t0], rs, x, y, _, hr, hrate, hxy => by
    match rs with
    | [] => rw [rateAt_one_nil] at hrate; exact absurd hrate (lt_irrefl 0)
    | [r0] =>
      rw [rateAt_one] at hrate
      by_cases hx : t0 ≤ x
      · rw [if_pos hx] at hrate
        simp only [cpAux]
        have h1 : max 0 (x - t0) = x - t0 := max_eq_right (by linarith)
        have h2 : max 0 (y - t0) = y - t0 := max_eq_right (by linarith)
        rw [h1, h2]
        exact mul_lt_mul_of_pos_left (by linarith) hrate
      · rw [if_neg hx] at hrate; exact absurd hrate (lt_irrefl 0)
    | r0 :: r1 :: rs' => rw [rateAt_one_many] at hrate; exact absurd hrate (lt_irrefl 0)
  | t0 :: t1 :: ts, rs, x, y, hs, hr, hrate, hxy => by
    match rs with
    | [] => rw [rateAt_many_nil] at hrate; exact absurd hrate (lt_irrefl 0)
    | r0 :: rs' =>
      have hr0 : 0 ≤ r0 := hr r0 (by simp)
      have hrtl : ∀ r ∈ rs', 0 ≤ r := fun r h => hr r (by simp [h])
      rw [rateAt_cons] at hrate
      by_cases hc : t0 ≤ x ∧ x < t1
      · rw [if_pos hc] at hrate
        simp only [cpAux]
        have hminx : min x t1 = x := min_eq_left (le_of_lt hc.2)
        have hminy : x < min y t1 := lt_min hxy hc.2
        have h1 : max 0 (min x t1 - t0) = x - t0 := by
          rw [hminx]; exact max_eq_right (by linarith [hc.1])
        have h2 : max 0 (min y t1 - t0) = min y t1 - t0 := by
          refine max_eq_right ?_
          have : t0 ≤ x := hc.1
          linarith [hminy]
        have hfirst : r0 * max 0 (min x t1 - t0) < r0 * max 0 (min y t1 - t0) := by
          rw [h1, h2]
          exact mul_lt_mul_of_pos_left (by linarith [hminy]) hrate
        have hrest := cpAux_mono (t1 :: ts) rs' hrtl (le_of_lt hxy)
        linarith
      · rw [if_neg hc] at hrate
        have ht1x : t1 ≤ x := rateAt_pos_head_le t1 ts rs' hs.2 hrate
        have ih := cpAux_lt_of_rate_pos (t1 :: ts) rs' hs.2 hrtl hrate hxy
        simp only [cpAux]
        have hminx : min x t1 = t1 := min_eq_right ht1x
        have hminy : min y t1 = t1 := min_eq_right (by linarith)
        rw [hminx, hminy]
        linarith

lemma cpAux_one (t0 r0 t : ℚ) : cpAux [t0] [r0] t = r0 * max 0 (t - t0) := rfl

lemma cpAux_cons (t0 t1 r0 t : ℚ) (ts rs : List ℚ) :
    cpAux (t0 :: t1 :: ts) (r0 :: rs) t
      = r0 * max 0 (min t t1 - t0) + cpAux (t1 :: ts) rs t := rfl

lemma cpAux_one_many (t0 r0 r1 t : ℚ) (rs : List ℚ) :
    cpAux [t0] (r0 :: r1 :: rs) t = 0 := rfl

lemma cpAux_many_nil (t0 t1 t : ℚ) (ts : List ℚ) :
    cpAux (t0 :: t1 :: ts) [] t = 0 := rfl

lemma tfpAux_one (t0 r0 n : ℚ) :
    tfpAux [t0] [r0] n
      = if r0 = 0 then Except.error CtError.Unreachable
        else Except.ok (t0 + n / r0) := rfl

lemma tfpAux_cons (t0 t1 r0 n : ℚ) (ts rs : List ℚ) :
    tfpAux (t0 :: t1 :: ts) (r0 :: rs) n
      = if n ≤ r0 * (t1 - t0) then Except.ok (t0 + n / r0)
        else tfpAux (t1 :: ts) rs (n - r0 * (t1 - t0)) := rfl

lemma tfpAux_one_nil (t0 n : ℚ) :
    tfpAux [t0] [] n = Except.error CtError.Unreachable := rfl

lemma tfpAux_one_many (t0 r0 r1 n : ℚ) (rs : List ℚ) :
    tfpAux [t0] (r0 :: r1 :: rs) n = Except.error CtError.Unreachable := rfl

lemma tfpAux_many_nil (t0 t1 n : ℚ) (ts : List ℚ) :
    tfpAux (t0 :: t1 :: ts) [] n = Except.error CtError.Unreachable := rfl

lemma rate_pos_of_cap {r0 t0 t1 n : ℚ} (h01 : t0 < t1) (hn : 0 < n)
    (hcap : n ≤ r0 * (t1 - t0)) : 0 < r0 := by
  by_contra hr
  have h1 : r0 * (t1 - t0) ≤ 0 * (t1 - t0) :=
    mul_le_mul_of_nonneg_right (le_of_not_lt hr) (by linarith)
  rw [zero_mul] at h1
  linarith

lemma tfpAux_ok_head_lt : ∀ (t0 : ℚ) (ts rs : List ℚ) {n u : ℚ},
    strictlyInc (t0 :: ts) → (∀ r ∈ rs, 0 ≤ r) → 0 < n →
    tfpAux (t0 :: ts) rs n = Except.ok u → t0 < u
  | t0, [], rs, n, u, _, hr, hn, h => by
    match rs with
    | [] => rw [tfpAux_one_nil] at h; simp at h
    | [r0] =>
      rw [tfpAux_one] at h
      by_cases hr0 : r0 = 0
      · rw [if_pos hr0] at h; simp at h
      · rw [if_neg hr0] at h
        simp only [Except.ok.injEq] at h
        have hr0p : 0 < r0 := lt_of_le_of_ne (hr r0 (by simp)) (Ne.symm hr0)
        have := div_pos hn hr0p
        linarith [h]
    | r0 :: r1 :: rs' => rw [tfpAux_one_many] at h; simp at h
  | t0, t1 :: ts, rs, n, u, hs, hr, hn, h => by
    match rs with
    | [] => rw [tfpAux_many_nil] at h; simp at h
    | r0 :: rs' =>
      rw [tfpAux_cons] at h
      by_cases hcap : n ≤ r0 * (t1 - t0)
      · rw [if_pos hcap] at h
        simp only [Except.ok.injEq] at h
        have hr0p : 0 < r0 := rate_pos_of_cap hs.1 hn hcap
        have := div_pos hn hr0p
        linarith [h]
      · rw [if_neg hcap] at h
        have hn' : 0 < n - r0 * (t1 - t0) := by linarith [lt_of_not_le hcap]
        have := tfpAux_ok_head_lt t1 ts rs' hs.2
          (fun r hm => hr r (by simp [hm])) hn' h
        linarith [hs.1]

lemma tfpAux_ok_cp_eq : ∀ (t0 : ℚ) (ts rs : List ℚ) {n u : ℚ},
    strictlyInc (t0 :: ts) → (∀ r ∈ rs, 0 ≤ r) → 0 < n →
    tfpAux (t0 :: ts) rs n = Except.ok u → cpAux (t0 :: ts) rs u = n
  | t0, [], rs, n, u, _, hr, hn, h => by
    match rs with
    | [] => rw [tfpAux_one_nil] at h; simp at h
    | [r0] =>
      rw [tfpAux_one] at h
      by_cases hr0 : r0 = 0
      · rw [if_pos hr0] at h; simp at h
      · rw [if_neg hr0] at h
        simp only [Except.ok.injEq] at h
        have hr0p : 0 < r0 := lt_of_le_of_ne (hr r0 (by simp)) (Ne.symm hr0)
        have hdiv : 0 < n / r0 := div_pos hn hr0p
        rw [cpAux_one, ← h]
        have : max 0 (t0 + n / r0 - t0) = n / r0 := by
          rw [max_eq_right (by linarith)]; ring
        rw [this]
        field_simp
    | r0 :: r1 :: rs' => rw [tfpAux_one_many] at h; simp at h
  | t0, t1 :: ts, rs, n, u, hs, hr, hn, h => by
    match rs with
    | [] => rw [tfpAux_many_nil] at h; simp at h
    | r0 :: rs' =>
      have hrtl : ∀ r ∈ rs', 0 ≤ r := fun r hm => hr r (by simp [hm])
      rw [tfpAux_cons] at h
      by_cases hcap : n ≤ r0 * (t1 - t0)
      · rw [if_pos hcap] at h
        simp only [Except.ok.injEq] at h
        have hr0p : 0 < r0 := rate_pos_of_cap hs.1 hn hcap
        have hdiv : 0 < n / r0 := div_pos hn hr0p
        have hut1 : u ≤ t1 := by
          rw [← h]
          have : n / r0 ≤ t1 - t0 := by
            rw [div_le_iff₀ hr0p]; linarith [hcap]
          linarith
        rw [cpAux_cons]
        rw [cpAux_zero_of_le_head t1 ts rs' hs.2 hut1, add_zero]
        have hmin : min u t1 = u := min_eq_left hut1
        rw [hmin, ← h]
        have : max 0 (t0 + n / r0 - t0) = n / r0 := by
          rw [max_eq_right (by linarith)]; ring
        rw [this]
        field_simp
      · rw [if_neg hcap] at h
        have hn' : 0 < n - r0 * (t1 - t0) := by linarith [lt_of_not_le hcap]
        have ih := tfpAux_ok_cp_eq t1 ts rs' hs.2 hrtl hn' h
        have ht1u : t1 < u := tfpAux_ok_head_lt t1 ts rs' hs.2 hrtl hn' h
        rw [cpAux_cons, ih]
        have hmin : min u t1 = t1 := min_eq_right (le_of_lt ht1u)
        rw [hmin]
        have : max 0 (t1 - t0) = t1 - t0 := max_eq_right (by linarith [hs.1])
        rw [this]
        ring

lemma tfpAux_ok_of_attained : ∀ (t0 : ℚ) (ts rs : List ℚ) {n x : ℚ},
    strictlyInc (t0 :: ts) → (∀ r ∈ rs, 0 ≤ r) → 0 < n →
    n ≤ cpAux (t0 :: ts) rs x → ∃ u, tfpAux (t0 :: ts) rs n = Except.ok u
  | t0, [], rs, n, x, _, hr, hn, hatt => by
    match rs with
    | [] =>
      rw [show cpAux [t0] [] x = 0 from rfl] at hatt
      linarith
    | [r0] =>
      rw [cpAux_one] at hatt
      have hr0 : r0 ≠ 0 := by
        intro h0
        rw [h0, zero_mul] at hatt
        linarith
      exact ⟨t0 + n / r0, by rw [tfpAux_one, if_neg hr0]⟩
    | r0 :: r1 :: rs' =>
      rw [cpAux_one_many] at hatt
      linarith
  | t0, t1 :: ts, rs, n, x, hs, hr, hn, hatt => by
    match rs with
    | [] =>
      rw [cpAux_many_nil] at hatt
      linarith
    | r0 :: rs' =>
      have hr0 : 0 ≤ r0 := hr r0 (by simp)
      have hrtl : ∀ r ∈ rs', 0 ≤ r := fun r hm => hr r (by simp [hm])
      by_cases hcap : n ≤ r0 * (t1 - t0)
      · exact ⟨t0 + n / r0, by rw [tfpAux_cons, if_pos hcap]⟩
      · have hn' : 0 < n - r0 * (t1 - t0) := by linarith [lt_of_not_le hcap]
        have hbound : r0 * max 0 (min x t1 - t0) ≤ r0 * (t1 - t0) := by
          refine mul_le_mul_of_nonneg_left (max_le (by linarith [hs.1]) ?_) hr0
          have : min x t1 ≤ t1 := min_le_right x t1
          linarith
        rw [cpAux_cons] at hatt
        have hatt' : n - r0 * (t1 - t0) ≤ cpAux (t1 :: ts) rs' x := by linarith
        obtain ⟨u, hu⟩ := tfpAux_ok_of_attained t1 ts rs' hs.2 hrtl hn' hatt'
        exact ⟨u, by rw [tfpAux_cons, if_neg hcap]; exact hu⟩

lemma new_ok_valid {times rates : List ℚ} {er : EnrollmentRate}
    (h : EnrollmentRate.new times rates = Except.ok er) :
    er = ⟨times, rates⟩ ∧ er.Valid := by
  unfold EnrollmentRate.new at h
  split_ifs at h with hc
  simp only [Except.ok.injEq] at h
  subst h
  exact ⟨rfl, hc⟩

/-- C8 (amended): for every validly constructed enrollment model,
`cumulative_patients 0 = 0` and `cumulative_patients` is non-decreasing; and
the round trip `time_for_patients (cumulative_patients t) = t` holds at every
time `t` where the enrollment rate is strictly positive, provided enrollment
is not flat immediately before `t` (every earlier time has strictly smaller
cumulative enrollment) — without that proviso the round trip returns the
first time the count was reached, which can precede `t`. -/
theorem c8_enrollment_roundtrip (er : EnrollmentRate) (times rates : List ℚ)
    (her : EnrollmentRate.new times rates = Except.ok er) :
    cumulative_patients er 0 = 0
      ∧ (∀ s t : ℚ, s ≤ t → cumulative_patients er s ≤ cumulative_patients er t)
      ∧ (∀ t : ℚ, 0 < rateAt er.times er.rates t →
          (∀ s, 0 ≤ s → s < t → cumulative_patients er s < cumulative_patients er t) →
          time_for_patients er (cumulative_patients er t) = Except.ok t) := by
  obtain ⟨herq, hvalid⟩ := new_ok_valid her
  subst herq
  obtain ⟨hlen, hinc, hhd, hr⟩ := hvalid
  refine ⟨cumulative_patients_zero ⟨hlen, hinc, hhd, hr⟩, ?_, ?_⟩
  · intro s t hst
    exact cpAux_mono times rates hr hst
  · intro t hrate hplateau
    simp only [cumulative_patients, time_for_patients] at *
    match htimes : times with
    | [] =>
      rw [rateAt_nil] at hrate
      exact absurd hrate (lt_irrefl 0)
    | t0 :: ts =>
      have ht0le : t0 ≤ t := rateAt_pos_head_le t0 ts rates hinc hrate
      have ht0nn : 0 ≤ t0 := hhd
      by_cases hn : cpAux (t0 :: ts) rates t ≤ 0
      · rw [if_pos hn]
        rcases eq_or_lt_of_le (le_trans ht0nn ht0le) with heq | hlt
        · rw [← heq]
        · have hcp0 : cpAux (t0 :: ts) rates 0 = 0 :=
            cpAux_zero_of_le_head t0 ts rates hinc ht0nn
          have := hplateau 0 le_rfl hlt
          rw [hcp0] at this
          linarith
      · have hnpos : 0 < cpAux (t0 :: ts) rates t := lt_of_not_le hn
        rw [if_neg hn]
        obtain ⟨u, hu⟩ := tfpAux_ok_of_attained t0 ts rates hinc hr hnpos le_rfl
        have hcpu : cpAux (t0 :: ts) rates u = cpAux (t0 :: ts) rates t :=
          tfpAux_ok_cp_eq t0 ts rates hinc hr hnpos hu
        have ht0u : t0 < u := tfpAux_ok_head_lt t0 ts rates hinc hr hnpos hu
        rcases lt_trichotomy u t with hlt | heq | hgt
        · have := hplateau u (by linarith) hlt
          linarith
        · exact heq ▸ hu
        · have := cpAux_lt_of_rate_pos (t0 :: ts) rates hinc hr hrate hgt
          linarith

/-- Counterexample to C8 as stated: with times `[0, 1]` and rates `[0, 1]`
(valid model, zero rate then positive rate), the enrollment rate at `t = 1` is
strictly positive, yet `time_for_patients (cumulative_patients 1)` returns 0,
a full unit away from `t = 1`: the round trip fails wherever enrollment was
flat just before `t`. -/
theorem c8_counterexample :
    EnrollmentRate.new [0, 1] [0, 1] = Except.ok ⟨[0, 1], [0, 1]⟩
      ∧ 0 < rateAt [0, 1] [0, 1] 1
      ∧ cumulative_patients ⟨[0, 1], [0, 1]⟩ 1 = 0
      ∧ time_for_patients ⟨[0, 1], [0, 1]⟩ (cumulative_patients ⟨[0, 1], [0, 1]⟩ 1)
          = Except.ok 0
      ∧ (0 : ℚ) ≠ 1 := by decide

/-- Witness for C8 at a concrete input. -/
theorem c8_witness :
    cumulative_patients ⟨[0], [1]⟩ 0 = 0
      ∧ time_for_patients ⟨[0], [1]⟩ (cumulative_patients ⟨[0], [1]⟩ 2)
          = Except.ok 2 := by
  have h := c8_enrollment_roundtrip ⟨[0], [1]⟩ [0] [1] (by decide)
  refine ⟨h.1, h.2.2 2 (by decide) ?_⟩
  intro s hs hlt
  simp only [cumulative_patients, cpAux_one, sub_zero, one_mul]
  rw [max_eq_right hs, max_eq_right (by norm_num : (0:ℚ) ≤ 2)]
  exact hlt

/-! ### Solver lemmas -/

lemma bisectPower_zero (f : ℚ → ℚ) (target tol lo hi : ℚ) :
    bisectPower f target tol lo hi 0 = Except.error CtError.NonConvergence := rfl

lemma bisectPower_succ (f : ℚ → ℚ) (target tol lo hi : ℚ) (fuel : ℕ) :
    bisectPower f target tol lo hi (fuel + 1)
      = (if |f ((lo + hi) / 2) - target| ≤ tol then Except.ok ((lo + hi) / 2)
         else if f ((lo + hi) / 2) < target then
           bisectPower f target tol ((lo + hi) / 2) hi fuel
         else bisectPower f target tol lo ((lo + hi) / 2) fuel) := rfl

lemma bisectPower_ok_mem {f : ℚ → ℚ} {target tol : ℚ} :
    ∀ {fuel : ℕ} {lo hi x : ℚ}, lo ≤ hi →
      bisectPower f target tol lo hi fuel = Except.ok x → lo ≤ x ∧ x ≤ hi := by
  intro fuel
  induction fuel with
  | zero => intro lo hi x _ h; rw [bisectPower_zero] at h; simp at h
  | succ k ih =>
    intro lo hi x hlh h
    rw [bisectPower_succ] at h
    split_ifs at h with h1 h2
    · simp only [Except.ok.injEq] at h
      constructor <;> linarith [h]
    · have := ih (by linarith : (lo + hi) / 2 ≤ hi) h
      constructor <;> linarith [this.1, this.2]
    · have := ih (by linarith : lo ≤ (lo + hi) / 2) h
      constructor <;> linarith [this.1, this.2]

lemma bisectPower_ok_tol {f : ℚ → ℚ} {target tol : ℚ} :
    ∀ {fuel : ℕ} {lo hi x : ℚ},
      bisectPower f target tol lo hi fuel = Except.ok x → |f x - target| ≤ tol := by
  intro fuel
  induction fuel with
  | zero => intro lo hi x h; rw [bisectPower_zero] at h; simp at h
  | succ k ih =>
    intro lo hi x h
    rw [bisectPower_succ] at h
    split_ifs at h with h1 h2
    · simp only [Except.ok.injEq] at h
      exact h ▸ h1
    · exact ih h
    · exact ih h

lemma time_for_patients_ok_nonneg {er : EnrollmentRate} (hv : er.Valid)
    {n u : ℚ} (h : time_for_patients er n = Except.ok u) : 0 ≤ u := by
  unfold time_for_patients at h
  split_ifs at h with hn
  · simp only [Except.ok.injEq] at h
    exact h ▸ le_rfl
  · obtain ⟨hlen, hinc, hhd, hr⟩ := hv
    rcases htimes : er.times with _ | ⟨t0, ts⟩
    · rw [htimes, tfpAux_nil] at h; simp at h
    · rw [htimes] at h
      rw [htimes] at hinc hhd
      have := tfpAux_ok_head_lt t0 ts er.rates hinc hr (lt_of_not_le hn) h
      have ht0 : 0 ≤ t0 := hhd
      linarith

lemma compute_trial_ok_inv {m : Machinery} {n : ℕ} {alpha power : ℚ}
    {lower upper : Option SpendingFcn} {looks : Option (List ℚ)}
    {pt l1 l2 : ℚ} {ld : Option ℚ} {er : EnrollmentRate} {r : ℕ} {tol : ℚ}
    {td : TrialDesign}
    (h : compute_trial m n alpha power lower upper looks pt l1 l2 ld er r tol
          = Except.ok td) :
    ∃ lks accD D,
      validateParams alpha power pt l1 l2 ld r = Except.ok ()
      ∧ resolveLooks looks = Except.ok lks
      ∧ checkCustomLen "lower" lower lks = Except.ok ()
      ∧ checkCustomLen "upper" upper lks = Except.ok ()
      ∧ time_for_patients er (n : ℚ) = Except.ok accD
      ∧ bisectPower (m.rejectProbH1 n) power tol accD (accD + searchHorizon)
          iterBudget = Except.ok D
      ∧ td = { accrual_duration := accD
               trial_duration := D
               n_events := m.pObserved n D * min (cumulative_patients er D) (n : ℚ)
               n_patients := n
               h0_expected_accrual_duration := m.expAccrualH0 n D
               h1_expected_accrual_duration := m.expAccrualH1 n D
               h0_expected_trial_duration := m.expTrialH0 n D
               h1_expected_trial_duration := m.expTrialH1 n D
               h0_expected_sample_size := m.expSampleH0 n D
               h1_expected_sample_size := m.expSampleH1 n D } := by
  simp only [compute_trial, bind_eq_ok, Except.ok.injEq] at h
  obtain ⟨u1, h1, lks, h2, u3, h3, u4, h4, accD, h5, D, h6, h7⟩ := h
  cases u1; cases u3; cases u4
  exact ⟨lks, accD, D, h1, h2, h3, h4, h5, h6, h7.symm⟩

lemma mW_valid : mW.Valid := by
  refine ⟨?_, ?_, ?_, ?_, ?_, ?_, ?_, ?_⟩ <;> intro n D <;> norm_num [mW]

/-- C3: every successful `compute_trial_design` call (entry point `ctcompute`)
returns a design with `n_events ≤ n_patients`, `accrual_duration ≤
trial_duration`, and all durations and counts (including the expected ones)
non-negative, for any integration machinery satisfying the probabilistic
facts of `Machinery.Valid`. -/
theorem c3_design_invariants
    (m : Machinery) (n : ℕ) (alpha power : ℚ) (lsel usel : Option String)
    (looks : Option (List ℚ)) (pt l1 l2 : ℚ) (ld : Option ℚ)
    (rates times : List ℚ) (cs : Option (List ℚ)) (r : ℕ) (tol : ℚ)
    (hm : m.Valid) (td : TrialDesign)
    (h : ctcompute m n alpha power lsel usel looks pt l1 l2 ld rates times cs r tol
          = Except.ok td) :
    td.n_events ≤ (td.n_patients : ℚ)
      ∧ td.accrual_duration ≤ td.trial_duration
      ∧ 0 ≤ td.accrual_duration ∧ 0 ≤ td.trial_duration
      ∧ 0 ≤ td.n_events ∧ (0 : ℚ) ≤ (td.n_patients : ℚ)
      ∧ 0 ≤ td.h0_expected_accrual_duration ∧ 0 ≤ td.h1_expected_accrual_duration
      ∧ 0 ≤ td.h0_expected_trial_duration ∧ 0 ≤ td.h1_expected_trial_duration
      ∧ 0 ≤ td.h0_expected_sample_size ∧ 0 ≤ td.h1_expected_sample_size := by
  simp only [ctcompute, bind_eq_ok] at h
  obtain ⟨lf, hlf, uf, huf, er, her, hct⟩ := h
  obtain ⟨hereq, hval⟩ := new_ok_valid her
  obtain ⟨lks, accD, D, hv, hlks, hc1, hc2, htfp, hbis, htd⟩ := compute_trial_ok_inv hct
  have haccD : 0 ≤ accD := time_for_patients_ok_nonneg hval htfp
  have hmem := bisectPower_ok_mem
    (by norm_num [searchHorizon] : accD ≤ accD + searchHorizon) hbis
  have hD : accD ≤ D := hmem.1
  have hcp : 0 ≤ cumulative_patients er D := by
    unfold cumulative_patients
    exact cpAux_nonneg er.times er.rates D hval.2.2.2
  have hnn : (0 : ℚ) ≤ (n : ℚ) := Nat.cast_nonneg n
  have hminnn : 0 ≤ min (cumulative_patients er D) (n : ℚ) := le_min hcp hnn
  subst htd
  refine ⟨?_, hD, haccD, by linarith, ?_, hnn, hm.expAccrualH0_nonneg n D,
    hm.expAccrualH1_nonneg n D, hm.expTrialH0_nonneg n D, hm.expTrialH1_nonneg n D,
    hm.expSampleH0_nonneg n D, hm.expSampleH1_nonneg n D⟩
  · calc m.pObserved n D * min (cumulative_patients er D) (n : ℚ)
        ≤ 1 * min (cumulative_patients er D) (n : ℚ) :=
          mul_le_mul_of_nonneg_right (hm.pObserved_le_one n D) hminnn
      _ = min (cumulative_patients er D) (n : ℚ) := one_mul _
      _ ≤ (n : ℚ) := min_le_right _ _
  · exact mul_nonneg (hm.pObserved_nonneg n D) hminnn

/-- Witness for C3 at a concrete input. -/
theorem c3_witness :
    (1 : ℚ) ≤ ((1 : ℕ) : ℚ) ∧ (1 : ℚ) ≤ (524289 : ℚ) := by
  have h := c3_design_invariants mW 1 (1/2) (1/2) none none none (1/2) 1 1 none
    [1] [0] none 32 1 mW_valid ⟨1, 524289, 1, 1, 0, 0, 0, 0, 0, 0⟩ (by decide)
  exact ⟨h.1, h.2.1⟩

/-- C4: for every successful `compute_trial_design` call, re-evaluating the
integrated rejection probability under H1 (the same machinery the solver
used) at the solved trial duration gives the target power to within `tol`. -/
theorem c4_power_at_solution
    (m : Machinery) (n : ℕ) (alpha power : ℚ) (lsel usel : Option String)
    (looks : Option (List ℚ)) (pt l1 l2 : ℚ) (ld : Option ℚ)
    (rates times : List ℚ) (cs : Option (List ℚ)) (r : ℕ) (tol : ℚ)
    (td : TrialDesign)
    (h : ctcompute m n alpha power lsel usel looks pt l1 l2 ld rates times cs r tol
          = Except.ok td) :
    |m.rejectProbH1 n td.trial_duration - power| ≤ tol := by
  simp only [ctcompute, bind_eq_ok] at h
  obtain ⟨lf, hlf, uf, huf, er, her, hct⟩ := h
  obtain ⟨lks, accD, D, hv, hlks, hc1, hc2, htfp, hbis, htd⟩ := compute_trial_ok_inv hct
  have := bisectPower_ok_tol hbis
  subst htd
  exact this

/-- Witness for C4 at a concrete input. -/
theorem c4_witness : |mW.rejectProbH1 1 524289 - 1/2| ≤ 1 := by
  have h := c4_power_at_solution mW 1 (1/2) (1/2) none none none (1/2) 1 1 none
    [1] [0] none 32 1 ⟨1, 524289, 1, 1, 0, 0, 0, 0, 0, 0⟩ (by decide)
  exact h

lemma ssSearch_zero (solve : ℕ → Except CtError ℚ) (step : ℕ) (minPerc : ℚ) (n : ℕ) :
    ssSearch solve step minPerc n 0 = Except.error CtError.NonConvergence := rfl

lemma ssSearch_succ (solve : ℕ → Except CtError ℚ) (step : ℕ) (minPerc : ℚ)
    (n fuel : ℕ) :
    ssSearch solve step minPerc n (fuel + 1)
      = (solve n >>= fun d1 => solve (n + step) >>= fun d2 =>
          if percChange d1 d2 < minPerc then Except.ok (n, n + step)
          else ssSearch solve step minPerc (n + step) fuel) := rfl

lemma ssSearch_ok_inv {solve : ℕ → Except CtError ℚ} {step : ℕ} {minPerc : ℚ} :
    ∀ {fuel n : ℕ} {a b : ℕ},
      ssSearch solve step minPerc n fuel = Except.ok (a, b) →
      b = a + step ∧ ∃ d1 d2, solve a = Except.ok d1 ∧ solve b = Except.ok d2
        ∧ percChange d1 d2 < minPerc := by
  intro fuel
  induction fuel with
  | zero => intro n a b h; rw [ssSearch_zero] at h; simp at h
  | succ k ih =>
    intro n a b h
    rw [ssSearch_succ, bind_eq_ok] at h
    obtain ⟨d1, hd1, h⟩ := h
    rw [bind_eq_ok] at h
    obtain ⟨d2, hd2, h⟩ := h
    split_ifs at h with hperc
    · simp only [Except.ok.injEq, Prod.mk.injEq] at h
      obtain ⟨ha, hb⟩ := h
      subst ha; subst hb
      exact ⟨rfl, d1, d2, hd1, hd2, hperc⟩
    · exact ih h

/-- C5: every successful `compute_sample_size_range` call (entry point
`ss_range`) returns `n_low ≤ n_high`, and re-running `compute_trial_design`
(entry point `ctcompute`, at the search's grid resolution) at `n_low` and at
`n_high` succeeds with a trial-duration percentage change below
`min_perc_change`. -/
theorem c5_ss_range_postconditions
    (m : Machinery) (alpha power : ℚ) (lsel usel : Option String)
    (looks : Option (List ℚ)) (pt l1 l2 : ℚ) (ld : Option ℚ)
    (rates times : List ℚ) (cs : Option (List ℚ)) (tol delta mpc : ℚ)
    (a b : ℕ)
    (h : ss_range m alpha power lsel usel looks pt l1 l2 ld rates times cs tol delta mpc
          = Except.ok (a, b)) :
    a ≤ b ∧ ∃ td1 td2,
      ctcompute m a alpha power lsel usel looks pt l1 l2 ld rates times cs ssDefaultR tol
          = Except.ok td1
      ∧ ctcompute m b alpha power lsel usel looks pt l1 l2 ld rates times cs ssDefaultR tol
          = Except.ok td2
      ∧ percChange td1.trial_duration td2.trial_duration < mpc := by
  simp only [ss_range, bind_eq_ok] at h
  obtain ⟨lf, hlf, uf, huf, er, her, hrange⟩ := h
  unfold compute_ss_range at hrange
  obtain ⟨hb, d1, d2, hs1, hs2, hperc⟩ := ssSearch_ok_inv hrange
  simp only [map_eq_ok] at hs1 hs2
  obtain ⟨td1, htd1, hdur1⟩ := hs1
  obtain ⟨td2, htd2, hdur2⟩ := hs2
  rw [resolveSS_eq_resolveCT] at hlf huf
  refine ⟨by omega, td1, td2, ?_, ?_, ?_⟩
  · simp only [ctcompute]
    rw [hlf, ok_bind, huf, ok_bind, her, ok_bind]
    exact htd1
  · simp only [ctcompute]
    rw [hlf, ok_bind, huf, ok_bind, her, ok_bind]
    exact htd2
  · rw [hdur1, hdur2]
    exact hperc

/-- Witness for C5 at a concrete input. -/
theorem c5_witness :
    ss_range mW (1/2) (1/2) none none none (1/2) 1 1 none [1] [0] none 1 1 1
        = Except.ok (2, 3)
      ∧ (2 : ℕ) ≤ 3 := by
  refine ⟨by decide, ?_⟩
  exact (c5_ss_range_postconditions mW (1/2) (1/2) none none none (1/2) 1 1 none
    [1] [0] none 1 1 1 2 3 (by decide)).1

/-- C6: whenever the enrollment times/rates lists mismatch in length, the
times are not strictly increasing from a first value at least 0, or any rate
is negative, `EnrollmentRate::new` fails with `InvalidEnrollmentModel`, and
(once the spending selectors resolve) so do both entry points. -/
theorem c6_invalid_enrollment
    (times rates : List ℚ)
    (hbad : times.length ≠ rates.length ∨ ¬ (strictlyInc times ∧ headNonneg times)
            ∨ ∃ x ∈ rates, x < 0)
    (m : Machinery) (n : ℕ) (alpha power : ℚ) (lsel usel : Option String)
    (looks : Option (List ℚ)) (pt l1 l2 : ℚ) (ld : Option ℚ)
    (cs : Option (List ℚ)) (r : ℕ) (tol delta mpc : ℚ)
    (lf uf lf' uf' : Option SpendingFcn)
    (hl : resolveSpendingFcnCT "lower" lsel cs = Except.ok lf)
    (hu : resolveSpendingFcnCT "upper" usel cs = Except.ok uf)
    (hlss : resolveSpendingFcnSS "lower" lsel cs = Except.ok lf')
    (huss : resolveSpendingFcnSS "upper" usel cs = Except.ok uf') :
    EnrollmentRate.new times rates = Except.error CtError.InvalidEnrollmentModel
      ∧ ctcompute m n alpha power lsel usel looks pt l1 l2 ld rates times cs r tol
          = Except.error CtError.InvalidEnrollmentModel
      ∧ ss_range m alpha power lsel usel looks pt l1 l2 ld rates times cs tol delta mpc
          = Except.error CtError.InvalidEnrollmentModel := by
  have hcond : ¬ (times.length = rates.length ∧ strictlyInc times ∧ headNonneg times
      ∧ ∀ x ∈ rates, 0 ≤ x) := by
    rintro ⟨h1, h2, h3, h4⟩
    rcases hbad with hb | hb | hb
    · exact hb h1
    · exact hb ⟨h2, h3⟩
    · obtain ⟨x, hx, hxlt⟩ := hb
      linarith [h4 x hx]
  have hnew : EnrollmentRate.new times rates
      = Except.error CtError.InvalidEnrollmentModel := by
    unfold EnrollmentRate.new
    rw [if_neg hcond]
  refine ⟨hnew, ?_, ?_⟩
  · simp only [ctcompute]
    rw [hl, ok_bind, hu, ok_bind, hnew, error_bind]
  · simp only [ss_range]
    rw [hlss, ok_bind, huss, ok_bind, hnew, error_bind]

/-- Witness for C6 at the spec's concrete error scenario (times `[0, 5, 3]`). -/
theorem c6_witness :
    EnrollmentRate.new [0, 5, 3] [1, 1, 1] = Except.error CtError.InvalidEnrollmentModel
      ∧ ctcompute mW 1 (1/2) (1/2) none none none (1/2) 1 1 none [1, 1, 1] [0, 5, 3] none 32 1
          = Except.error CtError.InvalidEnrollmentModel := by
  have h := c6_invalid_enrollment [0, 5, 3] [1, 1, 1] (Or.inr (Or.inl (by decide)))
    mW 1 (1/2) (1/2) none none none (1/2) 1 1 none none 32 1 1 1
    none none none none rfl rfl rfl rfl
  exact ⟨h.1, h.2.1⟩

/-! ### The parametric Lan-DeMets O'Brien-Fleming spending function -/

lemma stdGauss_integrable : MeasureTheory.Integrable stdGauss := by
  unfold stdGauss
  exact integrable_exp_neg_mul_sq (by norm_num)

lemma stdGauss_pos (x : ℝ) : 0 < stdGauss x := Real.exp_pos _

lemma stdNormalIntegral_mono : Monotone stdNormalIntegral := by
  intro a b hab
  unfold stdNormalIntegral
  refine MeasureTheory.setIntegral_mono_set stdGauss_integrable.integrableOn ?_ ?_
  · exact Filter.Eventually.of_forall fun x => (stdGauss_pos x).le
  · exact (Set.Iic_subset_Iic.mpr hab).eventuallyLE

lemma stdGauss_integral_Ioi :
    ∫ x in Set.Ioi (0 : ℝ), stdGauss x = Real.sqrt (2 * Real.pi) / 2 := by
  unfold stdGauss
  rw [integral_gaussian_Ioi]
  rw [show Real.pi / (1 / 2 : ℝ) = 2 * Real.pi by ring]

lemma stdNormalIntegral_zero :
    stdNormalIntegral 0 = Real.sqrt (2 * Real.pi) / 2 := by
  have heven : ∀ x : ℝ, stdGauss (-x) = stdGauss x := fun x => by
    unfold stdGauss; rw [neg_sq]
  unfold stdNormalIntegral
  calc ∫ x in Set.Iic (0 : ℝ), stdGauss x
      = ∫ x in Set.Iic (0 : ℝ), stdGauss (-x) := by simp_rw [heven]
    _ = ∫ x in Set.Ioi (-(0 : ℝ)), stdGauss x := integral_comp_neg_Iic 0 stdGauss
    _ = Real.sqrt (2 * Real.pi) / 2 := by rw [neg_zero]; exact stdGauss_integral_Ioi

lemma stdNormalIntegral_repr (y : ℝ) :
    stdNormalIntegral y = (∫ x in (0 : ℝ)..y, stdGauss x) + stdNormalIntegral 0 := by
  have h2 : (∫ x in Set.Iic y, stdGauss x) - (∫ x in Set.Iic (0 : ℝ), stdGauss x)
      = ∫ x in (0 : ℝ)..y, stdGauss x :=
    intervalIntegral.integral_Iic_sub_Iic stdGauss_integrable.integrableOn
      stdGauss_integrable.integrableOn
  unfold stdNormalIntegral
  linarith [h2]

lemma stdNormalIntegral_continuous : Continuous stdNormalIntegral := by
  have h : stdNormalIntegral
      = fun y => (∫ x in (0 : ℝ)..y, stdGauss x) + stdNormalIntegral 0 :=
    funext stdNormalIntegral_repr
  rw [h]
  exact (stdGauss_integrable.continuous_primitive 0).add continuous_const

lemma stdNormalIntegral_tendsto :
    Filter.Tendsto stdNormalIntegral Filter.atTop (nhds (Real.sqrt (2 * Real.pi))) := by
  have h1 : Filter.Tendsto (fun y : ℝ => ∫ x in (0 : ℝ)..y, stdGauss x) Filter.atTop
      (nhds (∫ x in Set.Ioi (0 : ℝ), stdGauss x)) :=
    MeasureTheory.intervalIntegral_tendsto_integral_Ioi 0
      stdGauss_integrable.integrableOn Filter.tendsto_id
  rw [stdGauss_integral_Ioi] at h1
  have h2 := h1.add (tendsto_const_nhds (x := stdNormalIntegral 0))
  have hlim : Real.sqrt (2 * Real.pi) / 2 + stdNormalIntegral 0
      = Real.sqrt (2 * Real.pi) := by
    rw [stdNormalIntegral_zero]; ring
  rw [hlim] at h2
  exact h2.congr fun y => (stdNormalIntegral_repr y).symm

lemma sqrt_two_pi_pos : 0 < Real.sqrt (2 * Real.pi) :=
  Real.sqrt_pos.mpr (by positivity)

lemma stdNormalCDF_zero : stdNormalCDF 0 = 1 / 2 := by
  unfold stdNormalCDF
  rw [stdNormalIntegral_zero, div_right_comm, div_self (ne_of_gt sqrt_two_pi_pos)]

lemma stdNormalCDF_mono : Monotone stdNormalCDF :=
  stdNormalIntegral_mono.div_const (le_of_lt sqrt_two_pi_pos)

lemma exists_ldofCrit {a : ℝ} (h0 : 0 < a) (h1 : a < 1) :
    ∃ z, stdNormalCDF z = 1 - a / 2 := by
  have hs := sqrt_two_pi_pos
  have hprod1 : 0 < Real.sqrt (2 * Real.pi) * ((1 - a) / 2) :=
    mul_pos hs (by linarith)
  have hprod2 : 0 < Real.sqrt (2 * Real.pi) * (a / 2) :=
    mul_pos hs (by linarith)
  have hT1 : stdNormalIntegral 0 < (1 - a / 2) * Real.sqrt (2 * Real.pi) := by
    rw [stdNormalIntegral_zero]; nlinarith [hprod1]
  have hT2 : (1 - a / 2) * Real.sqrt (2 * Real.pi) < Real.sqrt (2 * Real.pi) := by
    nlinarith [hprod2]
  obtain ⟨y, hy⟩ := (stdNormalIntegral_tendsto.eventually (eventually_gt_nhds hT2)).exists
  have h0y : (0 : ℝ) ≤ y := by
    by_contra hy0
    have hmono := stdNormalIntegral_mono (le_of_lt (lt_of_not_ge hy0))
    linarith
  obtain ⟨z, hzmem, hz⟩ := intermediate_value_Icc h0y
    stdNormalIntegral_continuous.continuousOn ⟨le_of_lt hT1, le_of_lt hy⟩
  refine ⟨z, ?_⟩
  unfold stdNormalCDF
  rw [hz, mul_div_assoc, div_self (ne_of_gt hs), mul_one]

lemma ldofCrit_spec {a : ℝ} (h0 : 0 < a) (h1 : a < 1) :
    stdNormalCDF (ldofCrit a) = 1 - a / 2 := by
  unfold ldofCrit
  exact Classical.epsilon_spec (exists_ldofCrit h0 h1)

lemma ldofCrit_nonneg {a : ℝ} (h0 : 0 < a) (h1 : a < 1) : 0 ≤ ldofCrit a := by
  by_contra h
  have hmono := stdNormalCDF_mono (le_of_lt (lt_of_not_ge h))
  rw [ldofCrit_spec h0 h1, stdNormalCDF_zero] at hmono
  linarith

/-- C7: for the parametric (Lan-DeMets O'Brien-Fleming) spending boundary
with overall one-sided alpha `a` in (0,1), `boundary_value` at full
information equals `a` exactly, and `boundary_value` is monotone
non-decreasing on the information-fraction interval (0, 1]. -/
theorem c7_ldof_boundary (a : ℝ) (h0 : 0 < a) (h1 : a < 1) :
    ldof_boundary_value a 1 = a
      ∧ ∀ t u : ℝ, 0 < t → t ≤ u → u ≤ 1 →
          ldof_boundary_value a t ≤ ldof_boundary_value a u := by
  constructor
  · unfold ldof_boundary_value
    rw [Real.sqrt_one, div_one, ldofCrit_spec h0 h1]
    ring
  · intro t u ht htu _
    unfold ldof_boundary_value
    have hst : 0 < Real.sqrt t := Real.sqrt_pos.mpr ht
    have hsu : Real.sqrt t ≤ Real.sqrt u := Real.sqrt_le_sqrt htu
    have harg : ldofCrit a / Real.sqrt u ≤ ldofCrit a / Real.sqrt t :=
      div_le_div_of_nonneg_left (ldofCrit_nonneg h0 h1) hst hsu
    have hcdf := stdNormalCDF_mono harg
    linarith

/-- Witness for C7 at a concrete input. -/
theorem c7_witness :
    ldof_boundary_value (1/2) 1 = (1/2 : ℝ)
      ∧ ldof_boundary_value (1/2) (1/2) ≤ ldof_boundary_value (1/2) 1 := by
  have h := c7_ldof_boundary (1/2) (by norm_num) (by norm_num)
  exact ⟨h.1, h.2 (1/2) 1 (by norm_num) (by norm_num) (by norm_num)⟩

end CtcomputeR
